import Mathlib

/-
Shallow embedding of the Critical Path Method engine of
src/scripts/script3.py (class Task, create_task_objects, forward_pass,
backward_pass, calculate_floats_and_critical_path,
perform_critical_path_analysis).

Modelling conventions:
* pandas Timestamps are modelled as integer day ordinals (Int); a field
  that Python initialises to None is an Option Int.  A Timestamp object is
  always truthy in Python, so tests such as `if task.early_start:` are
  modelled as `isSome`.
* durations (planned_duration) are modelled as integer day counts, so
  `start + timedelta(days=duration)` is integer addition and
  `(a - b).days` is integer subtraction.
* the Python dict `tasks` (insertion ordered, keyed by task_id) is an
  insertion-ordered list of Task values with unique task_id keys;
  `dict[k] = v` replaces in place, keeping the original position, or
  appends at the end when the key is new.
* `row['pred_task_id'].split(', ') if pd.notna(...) else []` is modelled
  by storing the already-split list in the input record, with `none`
  standing for a NaN cell (the comma separated representation is the
  collaborator side per the spec).
* Python exceptions that can escape the engine (TypeError from comparing
  or subtracting None, ValueError from min()/max() of an empty sequence)
  are modelled with Except String.
* the two single-submission ThreadPoolExecutor blocks in
  perform_critical_path_analysis submit one job each and the `with`
  block joins it before continuing, so the passes run sequentially; they
  are modelled as plain sequential calls.
* the recursive process_task helpers are modelled with explicit fuel;
  the fuel bounds only the recursion depth, every theorem about the
  passes is quantified over the fuel (or evaluated at a fuel that is
  visibly larger than the recursion depth of the concrete input).
-/

namespace CPM

/-- One row of the prepared dataframe, restricted to the columns that
create_task_objects reads. -/
structure TaskRec where
  task_id : String
  task_name : String
  target_start_date : Int
  target_end_date : Int
  planned_duration : Int
  pred_task_id : Option (List String)
deriving Repr, DecidableEq

/-- The Task class of script3.py (lines 100-115): constructor arguments plus
the fields that __init__ initialises to [], None and False. -/
structure Task where
  task_id : String
  name : String
  planned_start : Int
  planned_finish : Int
  duration : Int
  predecessors : List String
  successors : List String
  early_start : Option Int
  early_finish : Option Int
  late_start : Option Int
  late_finish : Option Int
  total_float : Option Int
  free_float : Option Int
  is_critical : Bool
deriving Repr, DecidableEq

/-- Task.__init__: the computed fields start out unset. -/
def mkTask (task_id name : String) (planned_start planned_finish duration : Int)
    (predecessors : List String) : Task :=
  { task_id := task_id
    name := name
    planned_start := planned_start
    planned_finish := planned_finish
    duration := duration
    predecessors := predecessors
    successors := []
    early_start := none
    early_finish := none
    late_start := none
    late_finish := none
    total_float := none
    free_float := none
    is_critical := false }

/-- tasks[k]: first (and, once built, only) entry with the given id. -/
def dictGet (ts : List Task) (id : String) : Option Task :=
  ts.find? fun t => t.task_id == id

/-- `k in tasks`. -/
def dictContains (ts : List Task) (id : String) : Bool :=
  (dictGet ts id).isSome

/-- Mutation of the entry with the given id (Python mutates the shared Task
object in place, so every alias sees the update). -/
def dictSet (ts : List Task) (id : String) (f : Task → Task) : List Task :=
  ts.map fun t => if t.task_id == id then f t else t

/-- `tasks[task.task_id] = task`: replace in place when the key exists
(keeping the original dict position), otherwise append. -/
def dictInsert (ts : List Task) (t : Task) : List Task :=
  if dictContains ts t.task_id then dictSet ts t.task_id (fun _ => t) else ts ++ [t]

/-- create_task_objects (script3.py lines 117-135): build the dict from the
rows, then wire successor adjacency, skipping predecessor ids that are not
keys of the dict. -/
def create_task_objects (rows : List TaskRec) : List Task :=
  let tasks := rows.foldl
    (fun ts row => dictInsert ts
      (mkTask row.task_id row.task_name row.target_start_date row.target_end_date
        row.planned_duration (row.pred_task_id.getD [])))
    []
  let pairs := tasks.map fun t => (t.task_id, t.predecessors)
  pairs.foldl
    (fun ts pair =>
      pair.2.foldl
        (fun ts2 pred_id =>
          if dictContains ts2 pred_id then
            dictSet ts2 pred_id (fun u => { u with successors := u.successors ++ [pair.1] })
          else ts2)
        ts)
    tasks

/-- Python max over a nonempty list (the head seeds the fold). -/
def listMax (x : Int) (xs : List Int) : Int :=
  xs.foldl max x

/-- Python min over a nonempty list (the head seeds the fold). -/
def listMin (x : Int) (xs : List Int) : Int :=
  xs.foldl min x

/-- Body of process_task of forward_pass (script3.py lines 142-150), for
the task t found under the given id: seed a source from planned_start, or
take the max over the predecessors whose early_finish is already known
(the `if pred_id in tasks and tasks[pred_id].early_finish` filter); then
set early_finish if early_start is now set.  Split here into the seeding
half (lines 142-147) and the early_finish half (lines 149-150). -/
def forwardSeed (ts : List Task) (id : String) (t : Task) : List Task :=
  if t.predecessors = [] then
    dictSet ts id fun u => { u with early_start := some u.planned_start }
  else
    match t.predecessors.filterMap fun p =>
        match dictGet ts p with
        | some u => u.early_finish
        | none => none with
    | [] => ts
    | x :: xs => dictSet ts id fun u => { u with early_start := some (listMax x xs) }

/-- Lines 149-150: `if task.early_start: task.early_finish = ...`. -/
def setEFStep (ts : List Task) (id : String) : List Task :=
  match (dictGet ts id).bind Task.early_start with
  | some es => dictSet ts id fun u => { u with early_finish := some (es + u.duration) }
  | none => ts

def forwardStep (ts : List Task) (id : String) (t : Task) : List Task :=
  setEFStep (forwardSeed ts id t) id

/-- process_task of forward_pass (script3.py lines 138-154).  Returns early
when early_start is already set, otherwise runs the body and recurses into
the successors. -/
def processTask (fuel : Nat) (ts : List Task) (id : String) : List Task :=
  match fuel with
  | 0 => ts
  | Nat.succ fuel =>
    match dictGet ts id with
    | none => ts
    | some t =>
      if t.early_start.isSome then ts
      else
        t.successors.foldl
          (fun acc s => if dictContains acc s then processTask fuel acc s else acc)
          (forwardStep ts id t)

/-- forward_pass (script3.py lines 137-158): run process_task from every
task without predecessors, in dict order. -/
def forward_pass (fuel : Nat) (ts : List Task) : List Task :=
  (ts.map Task.task_id).foldl
    (fun acc id =>
      match dictGet acc id with
      | some t => if t.predecessors = [] then processTask fuel acc id else acc
      | none => acc)
    ts

/-- Body of process_task of backward_pass (script3.py lines 165-175), for
the task t found under the given id: a task without successors copies its
own early_finish (possibly None); otherwise the min over the successors
whose late_start is already known, falling back to early_finish when none
is; then late_start is set when late_finish is now set. -/
def backwardSeed (ts : List Task) (id : String) (t : Task) : List Task :=
  if t.successors = [] then
    dictSet ts id fun u => { u with late_finish := u.early_finish }
  else
    match t.successors.filterMap fun s =>
        match dictGet ts s with
        | some u => u.late_start
        | none => none with
    | [] => dictSet ts id fun u => { u with late_finish := u.early_finish }
    | x :: xs => dictSet ts id fun u => { u with late_finish := some (listMin x xs) }

/-- Lines 174-175: `if task.late_finish: task.late_start = ...`. -/
def setLSStep (ts : List Task) (id : String) : List Task :=
  match (dictGet ts id).bind Task.late_finish with
  | some lf => dictSet ts id fun u => { u with late_start := some (lf - u.duration) }
  | none => ts

def backwardStep (ts : List Task) (id : String) (t : Task) : List Task :=
  setLSStep (backwardSeed ts id t) id

/-- process_task of backward_pass: early return when late_finish is set,
otherwise the body above and recursion into the predecessors that are
dict keys. -/
def processTaskB (fuel : Nat) (ts : List Task) (id : String) : List Task :=
  match fuel with
  | 0 => ts
  | Nat.succ fuel =>
    match dictGet ts id with
    | none => ts
    | some t =>
      if t.late_finish.isSome then ts
      else
        t.predecessors.foldl
          (fun acc p => if dictContains acc p then processTaskB fuel acc p else acc)
          (backwardStep ts id t)

/-- Python `max(tasks.values(), key=lambda t: t.early_finish)`: an empty
dict raises ValueError; a single value is returned without any comparison;
with two or more values every element takes part in a comparison, so any
None key raises TypeError; otherwise the first maximum wins (replacement
only on strictly greater). -/
def maxByEarlyFinish : List Task → Except String Task
  | [] => Except.error "ValueError: max of empty sequence"
  | t :: rest =>
    if rest = [] then Except.ok t
    else if (t :: rest).all (fun u => u.early_finish.isSome) then
      Except.ok (rest.foldl
        (fun best u => if (best.early_finish.getD 0) < (u.early_finish.getD 0) then u else best)
        t)
    else Except.error "TypeError: comparison with None"

/-- backward_pass (script3.py lines 160-189): collect the sink tasks; if
there are none, pick the task with the greatest early_finish, seed its
late_finish with its early_finish and use it as the only end task; then run
process_task on every end task. -/
def backward_pass (fuel : Nat) (ts : List Task) : Except String (List Task) :=
  let end_ids := (ts.filter fun t => t.successors = []).map Task.task_id
  if end_ids = [] then
    match maxByEarlyFinish ts with
    | Except.error e => Except.error e
    | Except.ok latest =>
      let ts1 := dictSet ts latest.task_id fun u => { u with late_finish := u.early_finish }
      Except.ok (processTaskB fuel ts1 latest.task_id)
  else
    Except.ok (end_ids.foldl (fun acc id => processTaskB fuel acc id) ts)

/-- Lines 194-198 of the loop in calculate_floats_and_critical_path: when
early_start and late_start are both set, total_float, is_critical and the
critical_path append. -/
def calcTFStep (st : List String × List Task) (id : String) (t : Task) :
    List String × List Task :=
  match t.early_start, t.late_start with
  | some es, some ls =>
    ((if ls - es = 0 then st.1 ++ [id] else st.1),
      dictSet st.2 id fun u =>
        { u with total_float := some (ls - es), is_critical := decide (ls - es = 0) })
  | _, _ => (st.1, st.2)

/-- Lines 200-203: the free_float half of the loop body: for a task with
successors the min of successor.early_start - early_finish over the
successors that are dict keys (an unset Timestamp in that subtraction is a
TypeError, an empty min a ValueError); for a sink, a copy of
total_float. -/
def calcFFStep (st : List String × List Task) (id : String) :
    Except String (List String × List Task) :=
  match dictGet st.2 id with
  | none => Except.ok st
  | some t1 =>
    if t1.successors = [] then
      Except.ok (st.1, dictSet st.2 id fun u => { u with free_float := u.total_float })
    else
      match (t1.successors.filter fun s => dictContains st.2 s) with
      | [] => Except.error "ValueError: min of empty sequence"
      | s0 :: srest =>
        if t1.early_finish.isSome
            ∧ ((s0 :: srest).all fun s => ((dictGet st.2 s).bind Task.early_start).isSome) then
          Except.ok (st.1,
            dictSet st.2 id fun u =>
              { u with free_float := some (listMin
                  (((dictGet st.2 s0).bind Task.early_start).getD 0 - t1.early_finish.getD 0)
                  (srest.map fun s =>
                    ((dictGet st.2 s).bind Task.early_start).getD 0
                      - t1.early_finish.getD 0)) })
        else Except.error "TypeError: subtraction with None"

/-- One iteration of the loop in calculate_floats_and_critical_path
(script3.py lines 193-203), acting on the task with the given id: the
total_float half, then the free_float half on the updated state. -/
def calcStep (st : List String × List Task) (id : String) :
    Except String (List String × List Task) :=
  match dictGet st.2 id with
  | none => Except.ok st
  | some t => calcFFStep (calcTFStep st id t) id

/-- calculate_floats_and_critical_path (script3.py lines 191-205): fold the
per-task step over the tasks in dict order, accumulating the critical path
list. -/
def calculate_floats_and_critical_path (ts : List Task) :
    Except String (List String × List Task) :=
  (ts.map Task.task_id).foldlM calcStep ([], ts)

/-- One row of the results dataframe built in perform_critical_path_analysis
(script3.py lines 225-237). -/
structure ResultRow where
  task_id : String
  task_name : String
  early_start : Option Int
  early_finish : Option Int
  late_start : Option Int
  late_finish : Option Int
  total_float : Option Int
  free_float : Option Int
  is_critical : Bool
deriving Repr, DecidableEq

/-- The results-dict comprehension of perform_critical_path_analysis. -/
def toResultRow (t : Task) : ResultRow :=
  { task_id := t.task_id
    task_name := t.name
    early_start := t.early_start
    early_finish := t.early_finish
    late_start := t.late_start
    late_finish := t.late_finish
    total_float := t.total_float
    free_float := t.free_float
    is_critical := t.is_critical }

/-- The engine pipeline of perform_critical_path_analysis up to and
including calculate_floats_and_critical_path: build, forward, backward,
floats.  The problematic-task loop of lines 217-221 only writes log
messages and is omitted. -/
def engineTasks (fuel : Nat) (rows : List TaskRec) :
    Except String (List String × List Task) :=
  match backward_pass fuel (forward_pass fuel (create_task_objects rows)) with
  | Except.error e => Except.error e
  | Except.ok ts => calculate_floats_and_critical_path ts

/-- perform_critical_path_analysis (script3.py lines 207-242): the pipeline
plus the per-task results table; returns (results rows, critical_path). -/
def perform_critical_path_analysis (fuel : Nat) (rows : List TaskRec) :
    Except String (List ResultRow × List String) :=
  match engineTasks fuel rows with
  | Except.error e => Except.error e
  | Except.ok pr => Except.ok (pr.2.map toResultRow, pr.1)

/-- Rows of a successful run (empty on error). -/
def resultRows (x : Except String (List ResultRow × List String)) : List ResultRow :=
  match x with
  | Except.ok pr => pr.1
  | Except.error _ => []

/-- Critical path of a successful run (empty on error). -/
def resultCP (x : Except String (List ResultRow × List String)) : List String :=
  match x with
  | Except.ok pr => pr.2
  | Except.error _ => []

/-- Row of the given task in a successful run. -/
def findRow (x : Except String (List ResultRow × List String)) (id : String) :
    Option ResultRow :=
  (resultRows x).find? fun r => r.task_id == id

/-- Task of the given id in the engine state of a successful run. -/
def engineTaskGet (x : Except String (List String × List Task)) (id : String) :
    Option Task :=
  match x with
  | Except.ok pr => dictGet pr.2 id
  | Except.error _ => none

/-- Critical path held in the engine state of a successful run. -/
def engineCP (x : Except String (List String × List Task)) : List String :=
  match x with
  | Except.ok pr => pr.1
  | Except.error _ => []

/-- Final task list of the engine state of a successful run. -/
def engineTaskList (x : Except String (List String × List Task)) : List Task :=
  match x with
  | Except.ok pr => pr.2
  | Except.error _ => []

/-- Modelled from the spec: the ordering requirement of the critical path
extraction sentence, "order them by following successor edges" — each
consecutive pair of the path must be connected by a successor edge.  Used
only to compare the spec requirement with what the code returns. -/
def follows_successor_edges (ts : List Task) : List String → Bool
  | [] => true
  | [_] => true
  | a :: b :: rest =>
    (match dictGet ts a with
      | some t => t.successors.contains b
      | none => false)
    && follows_successor_edges ts (b :: rest)

/-
Concrete inputs used by the claim theorems below.
-/

/-- Two parallel sources A (duration 5) and B (duration 2) feeding C, with
B inserted first: the forward pass reaches C through B before A has been
processed. -/
def rowsBAC : List TaskRec := [
  { task_id := "B", task_name := "bee", target_start_date := 0, target_end_date := 2,
    planned_duration := 2, pred_task_id := none },
  { task_id := "A", task_name := "ay", target_start_date := 0, target_end_date := 5,
    planned_duration := 5, pred_task_id := none },
  { task_id := "C", task_name := "cee", target_start_date := 0, target_end_date := 6,
    planned_duration := 1, pred_task_id := some ["A", "B"] }]

/-- The same three records with A inserted first (spec scenario 2 order). -/
def rowsABC : List TaskRec := [
  { task_id := "A", task_name := "ay", target_start_date := 0, target_end_date := 5,
    planned_duration := 5, pred_task_id := none },
  { task_id := "B", task_name := "bee", target_start_date := 0, target_end_date := 2,
    planned_duration := 2, pred_task_id := none },
  { task_id := "C", task_name := "cee", target_start_date := 0, target_end_date := 6,
    planned_duration := 1, pred_task_id := some ["A", "B"] }]

/-- A dependency graph with the cycle B → C → B and the source A. -/
def rowsCycle : List TaskRec := [
  { task_id := "A", task_name := "ay", target_start_date := 0, target_end_date := 1,
    planned_duration := 1, pred_task_id := none },
  { task_id := "B", task_name := "bee", target_start_date := 0, target_end_date := 1,
    planned_duration := 1, pred_task_id := some ["A", "C"] },
  { task_id := "C", task_name := "cee", target_start_date := 0, target_end_date := 1,
    planned_duration := 1, pred_task_id := some ["B"] }]

/-- Two records with the same id X. -/
def rowsDup : List TaskRec := [
  { task_id := "X", task_name := "first", target_start_date := 0, target_end_date := 5,
    planned_duration := 5, pred_task_id := none },
  { task_id := "X", task_name := "second", target_start_date := 0, target_end_date := 3,
    planned_duration := 3, pred_task_id := none }]

/-- B references the undefined predecessor id X. -/
def rowsDangling : List TaskRec := [
  { task_id := "A", task_name := "ay", target_start_date := 0, target_end_date := 2,
    planned_duration := 2, pred_task_id := none },
  { task_id := "B", task_name := "bee", target_start_date := 0, target_end_date := 3,
    planned_duration := 3, pred_task_id := some ["X"] }]

/-- Diamond X → {Y, Z} → W in which W lists Z before Y, so the backward
pass reaches X through Z before Y has a late_start. -/
def rowsDiamond : List TaskRec := [
  { task_id := "X", task_name := "ex", target_start_date := 0, target_end_date := 1,
    planned_duration := 1, pred_task_id := none },
  { task_id := "Y", task_name := "why", target_start_date := 0, target_end_date := 5,
    planned_duration := 5, pred_task_id := some ["X"] },
  { task_id := "Z", task_name := "zed", target_start_date := 0, target_end_date := 1,
    planned_duration := 1, pred_task_id := some ["X"] },
  { task_id := "W", task_name := "dub", target_start_date := 0, target_end_date := 1,
    planned_duration := 1, pred_task_id := some ["Z", "Y"] }]

/-- B and T sources, A after T, C after A and B, inserted with B first: the
buggy passes give T a negative total_float but a zero free_float. -/
def rowsNegFloat : List TaskRec := [
  { task_id := "B", task_name := "bee", target_start_date := 0, target_end_date := 2,
    planned_duration := 2, pred_task_id := none },
  { task_id := "T", task_name := "tee", target_start_date := 0, target_end_date := 0,
    planned_duration := 0, pred_task_id := none },
  { task_id := "A", task_name := "ay", target_start_date := 0, target_end_date := 5,
    planned_duration := 5, pred_task_id := some ["T"] },
  { task_id := "C", task_name := "cee", target_start_date := 0, target_end_date := 6,
    planned_duration := 1, pred_task_id := some ["A", "B"] }]

/-- The chain A → B with B inserted before A. -/
def rowsChainRev : List TaskRec := [
  { task_id := "B", task_name := "bee", target_start_date := 0, target_end_date := 3,
    planned_duration := 3, pred_task_id := some ["A"] },
  { task_id := "A", task_name := "ay", target_start_date := 0, target_end_date := 2,
    planned_duration := 2, pred_task_id := none }]

/-- The chain A → B → C of spec scenario 1, in dependency order. -/
def rowsChain : List TaskRec := [
  { task_id := "A", task_name := "ay", target_start_date := 0, target_end_date := 2,
    planned_duration := 2, pred_task_id := none },
  { task_id := "B", task_name := "bee", target_start_date := 0, target_end_date := 5,
    planned_duration := 3, pred_task_id := some ["A"] },
  { task_id := "C", task_name := "cee", target_start_date := 0, target_end_date := 6,
    planned_duration := 1, pred_task_id := some ["B"] }]

/-- Final engine state of task A on rowsChain. -/
def chainTaskA : Task :=
  { task_id := "A", name := "ay", planned_start := 0, planned_finish := 2, duration := 2,
    predecessors := [], successors := ["B"], early_start := some 0, early_finish := some 2,
    late_start := some 0, late_finish := some 2, total_float := some 0, free_float := some 0,
    is_critical := true }

/-- Final engine state of task B on rowsChain. -/
def chainTaskB : Task :=
  { task_id := "B", name := "bee", planned_start := 0, planned_finish := 5, duration := 3,
    predecessors := ["A"], successors := ["C"], early_start := some 2, early_finish := some 5,
    late_start := some 2, late_finish := some 5, total_float := some 0, free_float := some 0,
    is_critical := true }

/-- Final engine state of task C on rowsChain. -/
def chainTaskC : Task :=
  { task_id := "C", name := "cee", planned_start := 0, planned_finish := 6, duration := 1,
    predecessors := ["B"], successors := [], early_start := some 5, early_finish := some 6,
    late_start := some 5, late_finish := some 6, total_float := some 0, free_float := some 0,
    is_critical := true }

/-- Final engine task table on rowsChain. -/
def chainTasks : List Task := [chainTaskA, chainTaskB, chainTaskC]

/-- Results row of task A on rowsChain. -/
def chainRowA : ResultRow := toResultRow chainTaskA

/-- Results row of task B on rowsChain. -/
def chainRowB : ResultRow := toResultRow chainTaskB

/-- Results row of task C on rowsChain. -/
def chainRowC : ResultRow := toResultRow chainTaskC

/-- Results table on rowsChain. -/
def chainResult : List ResultRow := [chainRowA, chainRowB, chainRowC]

/-- State of task X on rowsDiamond after the backward pass. -/
def diamondTaskX : Task :=
  { task_id := "X", name := "ex", planned_start := 0, planned_finish := 1, duration := 1,
    predecessors := [], successors := ["Y", "Z"], early_start := some 0,
    early_finish := some 1, late_start := some 4, late_finish := some 5,
    total_float := none, free_float := none, is_critical := false }

/-- State of task Y on rowsDiamond after the backward pass. -/
def diamondTaskY : Task :=
  { task_id := "Y", name := "why", planned_start := 0, planned_finish := 5, duration := 5,
    predecessors := ["X"], successors := ["W"], early_start := some 1,
    early_finish := some 6, late_start := some 1, late_finish := some 6,
    total_float := none, free_float := none, is_critical := false }

/-- State of task Z on rowsDiamond after the backward pass. -/
def diamondTaskZ : Task :=
  { task_id := "Z", name := "zed", planned_start := 0, planned_finish := 1, duration := 1,
    predecessors := ["X"], successors := ["W"], early_start := some 1,
    early_finish := some 2, late_start := some 5, late_finish := some 6,
    total_float := none, free_float := none, is_critical := false }

/-- State of task W on rowsDiamond after the backward pass. -/
def diamondTaskW : Task :=
  { task_id := "W", name := "dub", planned_start := 0, planned_finish := 1, duration := 1,
    predecessors := ["Z", "Y"], successors := [], early_start := some 6,
    early_finish := some 7, late_start := some 6, late_finish := some 7,
    total_float := none, free_float := none, is_critical := false }

/-- Task table on rowsDiamond after the backward pass. -/
def diamondBW : List Task := [diamondTaskX, diamondTaskY, diamondTaskZ, diamondTaskW]

/-- The dict keys are pairwise distinct (true for every dict the engine
builds, since dictInsert replaces an existing key in place). -/
def IdsNodup (ts : List Task) : Prop := (ts.map Task.task_id).Nodup

/-- Per-task data invariant maintained by the whole engine: early_finish
is early_start plus duration whenever set, late_start is late_finish minus
duration whenever set, total_float is late_start minus early_start
whenever set, and is_critical holds exactly when total_float is zero. -/
def TInv (t : Task) : Prop :=
  (∀ a, t.early_finish = some a → ∃ b, t.early_start = some b ∧ a = b + t.duration)
  ∧ (∀ a, t.late_start = some a → ∃ b, t.late_finish = some b ∧ a = b - t.duration)
  ∧ (∀ v, t.total_float = some v →
      ∃ es ls, t.early_start = some es ∧ t.late_start = some ls ∧ v = ls - es)
  ∧ (t.is_critical = true ↔ t.total_float = some 0)

/-- Global invariant: distinct keys and the per-task invariant. -/
def GInv (ts : List Task) : Prop := IdsNodup ts ∧ ∀ t ∈ ts, TInv t

/-- The late fields are still unset (true before the backward pass). -/
def lateUnset (t : Task) : Prop := t.late_start = none ∧ t.late_finish = none

/-- The float fields are still unset (true before the float pass). -/
def floatUnset (t : Task) : Prop := t.total_float = none ∧ t.free_float = none

/-- All computed fields are unset, as after Task.__init__. -/
def Fresh (t : Task) : Prop :=
  t.early_start = none ∧ t.early_finish = none ∧ t.late_start = none
  ∧ t.late_finish = none ∧ t.total_float = none ∧ t.free_float = none
  ∧ t.is_critical = false

/-- A task without successors carries its own early_finish as late_finish. -/
def SinkSeeded (t : Task) : Prop :=
  t.successors = [] → t.late_finish = t.early_finish

/-- Weakening of SinkSeeded that also allows a still-unset late_finish. -/
def SinkDisj (t : Task) : Prop :=
  t.successors = [] → t.late_finish = none ∨ t.late_finish = t.early_finish

/-- A task without successors has free_float equal to total_float. -/
def SinkFloatEq (t : Task) : Prop :=
  t.successors = [] → t.free_float = t.total_float

theorem dictGet_mem {ts : List Task} {id : String} {t : Task}
    (h : dictGet ts id = some t) : t ∈ ts :=
  List.mem_of_find?_eq_some h

theorem dictGet_key {ts : List Task} {id : String} {t : Task}
    (h : dictGet ts id = some t) : t.task_id = id := by
  have := List.find?_some h
  simpa using this

theorem dictGet_none {ts : List Task} {id : String}
    (h : dictGet ts id = none) : ∀ u ∈ ts, u.task_id ≠ id := by
  intro u hu
  have := List.find?_eq_none.mp h u hu
  simpa using this

theorem dictContains_iff {ts : List Task} {id : String} :
    dictContains ts id = true ↔ id ∈ ts.map Task.task_id := by
  unfold dictContains dictGet
  rw [List.find?_isSome]
  constructor
  · rintro ⟨x, hx, he⟩
    exact List.mem_map.mpr ⟨x, hx, by simpa using he⟩
  · rintro h
    rcases List.mem_map.mp h with ⟨x, hx, he⟩
    exact ⟨x, hx, by simpa using he⟩

theorem dictGet_unique {ts : List Task} {id : String} {t : Task}
    (nd : IdsNodup ts) (h : dictGet ts id = some t) :
    ∀ u ∈ ts, u.task_id = id → u = t := by
  induction ts with
  | nil => intro u hu; cases hu
  | cons v rest ih =>
    have hnd := List.nodup_cons.mp nd
    intro u hu hid
    by_cases hb : v.task_id = id
    · have hv : dictGet (v :: rest) id = some v := by
        unfold dictGet
        rw [List.find?_cons_of_pos]
        simpa using hb
      have hvt : v = t := by
        rw [hv] at h
        exact Option.some.inj h
      rcases List.mem_cons.mp hu with rfl | hu2
      · exact hvt
      · exfalso
        apply hnd.1
        rw [hb, ← hid]
        exact List.mem_map_of_mem Task.task_id hu2
    · have h2 : dictGet rest id = some t := by
        unfold dictGet at h ⊢
        rw [List.find?_cons_of_neg] at h
        · exact h
        · simpa using hb
      rcases List.mem_cons.mp hu with rfl | hu2
      · exact absurd hid hb
      · exact ih hnd.2 h2 u hu2 hid

theorem mem_dictSet_cases {ts : List Task} {id : String} {f : Task → Task} {u : Task}
    (h : u ∈ dictSet ts id f) :
    (∃ v, v ∈ ts ∧ v.task_id = id ∧ u = f v) ∨ (u ∈ ts ∧ u.task_id ≠ id) := by
  unfold dictSet at h
  rcases List.mem_map.mp h with ⟨v, hv, he⟩
  by_cases hb : v.task_id = id
  · left
    refine ⟨v, hv, hb, ?_⟩
    rw [← he, if_pos (by simpa using hb)]
  · right
    rw [← he, if_neg (by simpa using hb)]
    exact ⟨hv, hb⟩

theorem dictSet_forall {P : Task → Prop} {ts : List Task} {id : String} {f : Task → Task}
    (h : ∀ u ∈ ts, P u) (hf : ∀ u, u ∈ ts → u.task_id = id → P u → P (f u)) :
    ∀ u ∈ dictSet ts id f, P u := by
  intro u hu
  rcases mem_dictSet_cases hu with ⟨v, hv, hid, rfl⟩ | ⟨hu2, _⟩
  · exact hf v hv hid (h v hv)
  · exact h u hu2

theorem map_task_id_pointwise {ts : List Task} {g : Task → Task}
    (hg : ∀ u ∈ ts, (g u).task_id = u.task_id) :
    (ts.map g).map Task.task_id = ts.map Task.task_id := by
  induction ts with
  | nil => rfl
  | cons v rest ih =>
    simp only [List.map_cons]
    rw [hg v (List.mem_cons_self v rest),
      ih fun u hu => hg u (List.mem_cons_of_mem v hu)]

theorem dictSet_map_id {ts : List Task} {id : String} {f : Task → Task}
    (hf : ∀ u, u ∈ ts → u.task_id = id → (f u).task_id = u.task_id) :
    (dictSet ts id f).map Task.task_id = ts.map Task.task_id := by
  unfold dictSet
  apply map_task_id_pointwise
  intro u hu
  split
  · next hc => exact hf u hu (by simpa using hc)
  · rfl

theorem idsNodup_dictSet {ts : List Task} {id : String} {f : Task → Task}
    (hf : ∀ u, u ∈ ts → u.task_id = id → (f u).task_id = u.task_id)
    (nd : IdsNodup ts) : IdsNodup (dictSet ts id f) := by
  unfold IdsNodup
  rw [dictSet_map_id hf]
  exact nd

theorem foldl_pres {α : Type} {P : List Task → Prop} {f : List Task → α → List Task}
    (hf : ∀ ts a, P ts → P (f ts a)) :
    ∀ (l : List α) (ts : List Task), P ts → P (l.foldl f ts) := by
  intro l
  induction l with
  | nil => intro ts h; exact h
  | cons a rest ih => intro ts h; exact ih (f ts a) (hf ts a h)

theorem foldlM_pres {σ α : Type} {P : σ → Prop} {f : σ → α → Except String σ}
    (hf : ∀ s a s2, P s → f s a = Except.ok s2 → P s2) :
    ∀ (l : List α) (s s2 : σ), List.foldlM f s l = Except.ok s2 → P s → P s2 := by
  intro l
  induction l with
  | nil =>
    intro s s2 h hp
    have he : s = s2 := Except.ok.inj h
    exact he ▸ hp
  | cons a rest ih =>
    intro s s2 h hp
    simp only [List.foldlM_cons] at h
    cases hfa : f s a with
    | error e =>
      rw [hfa] at h
      exact Except.noConfusion h
    | ok s1 =>
      rw [hfa] at h
      exact ih s1 s2 h (hf s a s1 hp hfa)

theorem TInv_mkTask {a b : String} {c d e : Int} {preds : List String} :
    TInv (mkTask a b c d e preds) := by
  refine ⟨?_, ?_, ?_, ?_⟩
  · intro x hx; exact absurd hx (by simp [mkTask])
  · intro x hx; exact absurd hx (by simp [mkTask])
  · intro x hx; exact absurd hx (by simp [mkTask])
  · simp [mkTask]

theorem TInv_addSucc {u : Task} {s : String} (h : TInv u) :
    TInv { u with successors := u.successors ++ [s] } := by
  obtain ⟨h1, h2, h3, h4⟩ := h
  exact ⟨h1, h2, h3, h4⟩

theorem TInv_setES {u : Task} {v : Int} (h : TInv u) (hes : u.early_start = none) :
    TInv { u with early_start := some v } := by
  obtain ⟨h1, h2, h3, h4⟩ := h
  refine ⟨?_, h2, ?_, h4⟩
  · intro a ha
    rcases h1 a ha with ⟨b, hb, _⟩
    rw [hes] at hb
    cases hb
  · intro w hw
    rcases h3 w hw with ⟨es, ls, hesx, _, _⟩
    rw [hes] at hesx
    cases hesx

theorem TInv_setEF {u : Task} {es : Int} (h : TInv u) (hes : u.early_start = some es) :
    TInv { u with early_finish := some (es + u.duration) } := by
  obtain ⟨h1, h2, h3, h4⟩ := h
  refine ⟨?_, h2, h3, h4⟩
  · intro a ha
    exact ⟨es, hes, (Option.some.inj ha).symm⟩

theorem TInv_setLF {u : Task} {v : Option Int} (h : TInv u) (hlf : u.late_finish = none) :
    TInv { u with late_finish := v } := by
  obtain ⟨h1, h2, h3, h4⟩ := h
  refine ⟨h1, ?_, h3, h4⟩
  · intro a ha
    rcases h2 a ha with ⟨b, hb, _⟩
    rw [hlf] at hb
    cases hb

theorem TInv_setLS {u : Task} {lf : Int} (h : TInv u) (hlf : u.late_finish = some lf)
    (hls : u.late_start = none) :
    TInv { u with late_start := some (lf - u.duration) } := by
  obtain ⟨h1, h2, h3, h4⟩ := h
  refine ⟨h1, ?_, ?_, h4⟩
  · intro a ha
    exact ⟨lf, hlf, (Option.some.inj ha).symm⟩
  · intro w hw
    rcases h3 w hw with ⟨es, ls, _, hlsx, _⟩
    rw [hls] at hlsx
    cases hlsx

theorem TInv_setTF {u : Task} {es ls : Int} (h : TInv u)
    (hes : u.early_start = some es) (hls : u.late_start = some ls) :
    TInv { u with total_float := some (ls - es), is_critical := decide (ls - es = 0) } := by
  obtain ⟨h1, h2, h3, h4⟩ := h
  refine ⟨h1, h2, ?_, ?_⟩
  · intro w hw
    exact ⟨es, ls, hes, hls, (Option.some.inj hw).symm⟩
  · constructor
    · intro hd
      have hz : ls - es = 0 := of_decide_eq_true hd
      show some (ls - es) = some 0
      rw [hz]
    · intro hd
      have hz : ls - es = 0 := Option.some.inj hd
      exact decide_eq_true hz

theorem TInv_setFF {u : Task} (v : Option Int) (h : TInv u) :
    TInv { u with free_float := v } := by
  obtain ⟨h1, h2, h3, h4⟩ := h
  exact ⟨h1, h2, h3, h4⟩

theorem forwardSeed_forall {P : Task → Prop} {ts : List Task} {id : String} {t : Task}
    (hES : ∀ (u : Task) (v : Int), P u → P { u with early_start := some v })
    (h : ∀ u ∈ ts, P u) :
    ∀ u ∈ forwardSeed ts id t, P u := by
  unfold forwardSeed
  split
  · exact dictSet_forall h fun u _ _ hp => hES u u.planned_start hp
  · split
    · exact h
    · exact dictSet_forall h fun u _ _ hp => hES u _ hp

theorem setEFStep_forall {P : Task → Prop} {ts : List Task} {id : String}
    (hEF : ∀ (u : Task) (v : Int), P u → P { u with early_finish := some v })
    (h : ∀ u ∈ ts, P u) :
    ∀ u ∈ setEFStep ts id, P u := by
  unfold setEFStep
  split
  · exact dictSet_forall h fun u _ _ hp => hEF u _ hp
  · exact h

theorem processTask_forall {P : Task → Prop}
    (hES : ∀ (u : Task) (v : Int), P u → P { u with early_start := some v })
    (hEF : ∀ (u : Task) (v : Int), P u → P { u with early_finish := some v }) :
    ∀ (fuel : Nat) (ts : List Task) (id : String),
      (∀ u ∈ ts, P u) → ∀ u ∈ processTask fuel ts id, P u := by
  intro fuel
  induction fuel with
  | zero => intro ts id h u hu; exact h u hu
  | succ n ih =>
    intro ts id h u hu
    simp only [processTask] at hu
    cases hg : dictGet ts id with
    | none => rw [hg] at hu; exact h u hu
    | some t =>
      rw [hg] at hu
      simp only at hu
      by_cases hs : t.early_start.isSome
      · rw [if_pos hs] at hu; exact h u hu
      · rw [if_neg hs] at hu
        have hbase : ∀ u ∈ forwardStep ts id t, P u :=
          setEFStep_forall hEF (forwardSeed_forall hES h)
        exact foldl_pres (P := fun l => ∀ u ∈ l, P u)
          (fun ts2 a h2 => by
            dsimp only
            split
            · exact ih ts2 a h2
            · exact h2)
          t.successors (forwardStep ts id t) hbase u hu

theorem forward_pass_forall {P : Task → Prop}
    (hES : ∀ (u : Task) (v : Int), P u → P { u with early_start := some v })
    (hEF : ∀ (u : Task) (v : Int), P u → P { u with early_finish := some v })
    {fuel : Nat} {ts : List Task} (h : ∀ u ∈ ts, P u) :
    ∀ u ∈ forward_pass fuel ts, P u := by
  unfold forward_pass
  exact foldl_pres (P := fun l => ∀ u ∈ l, P u)
    (fun ts2 a h2 => by
      dsimp only
      cases hg : dictGet ts2 a with
      | none => exact h2
      | some t =>
        simp only
        by_cases hp : t.predecessors = []
        · rw [if_pos hp]; exact processTask_forall hES hEF fuel ts2 a h2
        · rw [if_neg hp]; exact h2)
    (ts.map Task.task_id) ts h

theorem backwardSeed_forall {P : Task → Prop} {ts : List Task} {id : String} {t : Task}
    (hLFc : ∀ u : Task, P u → P { u with late_finish := u.early_finish })
    (hLF : ∀ (u : Task) (v : Int), P u → P { u with late_finish := some v })
    (h : ∀ u ∈ ts, P u) :
    ∀ u ∈ backwardSeed ts id t, P u := by
  unfold backwardSeed
  split
  · exact dictSet_forall h fun u _ _ hp => hLFc u hp
  · split
    · exact dictSet_forall h fun u _ _ hp => hLFc u hp
    · exact dictSet_forall h fun u _ _ hp => hLF u _ hp

theorem setLSStep_forall {P : Task → Prop} {ts : List Task} {id : String}
    (hLS : ∀ (u : Task) (v : Int), P u → P { u with late_start := some v })
    (h : ∀ u ∈ ts, P u) :
    ∀ u ∈ setLSStep ts id, P u := by
  unfold setLSStep
  split
  · exact dictSet_forall h fun u _ _ hp => hLS u _ hp
  · exact h

theorem processTaskB_forall {P : Task → Prop}
    (hLFc : ∀ u : Task, P u → P { u with late_finish := u.early_finish })
    (hLF : ∀ (u : Task) (v : Int), P u → P { u with late_finish := some v })
    (hLS : ∀ (u : Task) (v : Int), P u → P { u with late_start := some v }) :
    ∀ (fuel : Nat) (ts : List Task) (id : String),
      (∀ u ∈ ts, P u) → ∀ u ∈ processTaskB fuel ts id, P u := by
  intro fuel
  induction fuel with
  | zero => intro ts id h u hu; exact h u hu
  | succ n ih =>
    intro ts id h u hu
    simp only [processTaskB] at hu
    cases hg : dictGet ts id with
    | none => rw [hg] at hu; exact h u hu
    | some t =>
      rw [hg] at hu
      simp only at hu
      by_cases hs : t.late_finish.isSome
      · rw [if_pos hs] at hu; exact h u hu
      · rw [if_neg hs] at hu
        have hbase : ∀ u ∈ backwardStep ts id t, P u :=
          setLSStep_forall hLS (backwardSeed_forall hLFc hLF h)
        exact foldl_pres (P := fun l => ∀ u ∈ l, P u)
          (fun ts2 a h2 => by
            dsimp only
            split
            · exact ih ts2 a h2
            · exact h2)
          t.predecessors (backwardStep ts id t) hbase u hu

theorem backward_pass_forall {P : Task → Prop}
    (hLFc : ∀ u : Task, P u → P { u with late_finish := u.early_finish })
    (hLF : ∀ (u : Task) (v : Int), P u → P { u with late_finish := some v })
    (hLS : ∀ (u : Task) (v : Int), P u → P { u with late_start := some v })
    {fuel : Nat} {ts ts2 : List Task} (hok : backward_pass fuel ts = Except.ok ts2)
    (h : ∀ u ∈ ts, P u) :
    ∀ u ∈ ts2, P u := by
  unfold backward_pass at hok
  by_cases hend : ((ts.filter fun t => t.successors = []).map Task.task_id) = []
  · rw [if_pos hend] at hok
    cases hmax : maxByEarlyFinish ts with
    | error e => rw [hmax] at hok; exact Except.noConfusion hok
    | ok latest =>
      rw [hmax] at hok
      simp only at hok
      have hts2 := Except.ok.inj hok
      rw [← hts2]
      exact processTaskB_forall hLFc hLF hLS fuel _ _
        (dictSet_forall h fun u _ _ hp => hLFc u hp)
  · rw [if_neg hend] at hok
    have hts2 := Except.ok.inj hok
    rw [← hts2]
    exact foldl_pres (P := fun l => ∀ u ∈ l, P u)
      (fun ts3 a h2 => processTaskB_forall hLFc hLF hLS fuel ts3 a h2)
      _ ts h

theorem dictSet_GInv_at {ts : List Task} {id : String} {f : Task → Task}
    (nd : IdsNodup ts) (hall : ∀ u ∈ ts, TInv u)
    (hid : ∀ u : Task, (f u).task_id = u.task_id)
    (ht : ∀ u, u ∈ ts → u.task_id = id → TInv u → TInv (f u)) :
    GInv (dictSet ts id f) :=
  ⟨idsNodup_dictSet (fun u _ _ => hid u) nd, dictSet_forall hall ht⟩

theorem create_forall {P : Task → Prop} {rows : List TaskRec}
    (hmk : ∀ row : TaskRec, P (mkTask row.task_id row.task_name row.target_start_date
      row.target_end_date row.planned_duration (row.pred_task_id.getD [])))
    (hSucc : ∀ (u : Task) (s : String), P u → P { u with successors := u.successors ++ [s] }) :
    ∀ u ∈ create_task_objects rows, P u := by
  unfold create_task_objects
  have h1 : ∀ u ∈ rows.foldl
      (fun ts row => dictInsert ts (mkTask row.task_id row.task_name row.target_start_date
        row.target_end_date row.planned_duration (row.pred_task_id.getD []))) [], P u := by
    apply foldl_pres (P := fun l => ∀ u ∈ l, P u)
    · intro ts row h
      unfold dictInsert
      split
      · exact dictSet_forall h fun u _ _ _ => hmk row
      · intro u hu
        rcases List.mem_append.mp hu with hu2 | hu2
        · exact h u hu2
        · have he := List.mem_singleton.mp hu2
          rw [he]
          exact hmk row
    · intro u hu; cases hu
  apply foldl_pres (P := fun l => ∀ u ∈ l, P u)
    (fun ts pair h => by
      apply foldl_pres (P := fun l => ∀ u ∈ l, P u)
        (fun ts3 pid h3 => by
          split
          · exact dictSet_forall h3 fun u _ _ hp => hSucc u pair.1 hp
          · exact h3)
        pair.2 ts h)
    _ _ h1

theorem create_TInv {rows : List TaskRec} : ∀ u ∈ create_task_objects rows, TInv u :=
  create_forall (fun _ => TInv_mkTask) (fun _ _ h => TInv_addSucc h)

theorem create_fresh {rows : List TaskRec} : ∀ u ∈ create_task_objects rows, Fresh u :=
  create_forall (fun _ => by simp [mkTask, Fresh]) (fun u s h => h)

theorem create_nodup {rows : List TaskRec} : IdsNodup (create_task_objects rows) := by
  unfold create_task_objects
  have h1 : IdsNodup (rows.foldl
      (fun ts row => dictInsert ts (mkTask row.task_id row.task_name row.target_start_date
        row.target_end_date row.planned_duration (row.pred_task_id.getD []))) []) := by
    apply foldl_pres (P := IdsNodup)
    · intro ts row nd
      unfold dictInsert
      split
      · exact idsNodup_dictSet (fun u _ hid => hid.symm) nd
      · next hc =>
        unfold IdsNodup
        rw [List.map_append]
        apply List.Nodup.append nd (by simp)
        intro a ha hb
        have hmem := List.mem_singleton.mp hb
        apply hc
        rw [dictContains_iff, ← hmem]
        exact ha
    · simp [IdsNodup]
  apply foldl_pres (P := IdsNodup)
    (fun ts pair nd => by
      apply foldl_pres (P := IdsNodup)
        (fun ts3 pid nd3 => by
          split
          · exact idsNodup_dictSet (fun u _ _ => rfl) nd3
          · exact nd3)
        pair.2 ts nd)
    _ _ h1

theorem create_GInv {rows : List TaskRec} : GInv (create_task_objects rows) :=
  ⟨create_nodup, create_TInv⟩

theorem forwardSeed_GInv {ts : List Task} {id : String} {t : Task}
    (h : GInv ts) (hg : dictGet ts id = some t) (hes : t.early_start = none) :
    GInv (forwardSeed ts id t) := by
  obtain ⟨nd, hall⟩ := h
  unfold forwardSeed
  split
  · exact dictSet_GInv_at nd hall (fun _ => rfl) fun u hu hid hp =>
      TInv_setES hp (by rw [dictGet_unique nd hg u hu hid]; exact hes)
  · split
    · exact ⟨nd, hall⟩
    · exact dictSet_GInv_at nd hall (fun _ => rfl) fun u hu hid hp =>
        TInv_setES hp (by rw [dictGet_unique nd hg u hu hid]; exact hes)

theorem setEFStep_GInv {ts : List Task} {id : String} (h : GInv ts) :
    GInv (setEFStep ts id) := by
  obtain ⟨nd, hall⟩ := h
  unfold setEFStep
  cases hb : (dictGet ts id).bind Task.early_start with
  | none => exact ⟨nd, hall⟩
  | some es =>
    cases hg : dictGet ts id with
    | none => rw [hg] at hb; simp at hb
    | some t1 =>
      rw [hg] at hb
      exact dictSet_GInv_at nd hall (fun _ => rfl) fun u hu hid _ => by
        rw [dictGet_unique nd hg u hu hid]
        exact TInv_setEF (hall t1 (dictGet_mem hg)) hb

theorem forwardStep_GInv {ts : List Task} {id : String} {t : Task}
    (h : GInv ts) (hg : dictGet ts id = some t) (hes : t.early_start = none) :
    GInv (forwardStep ts id t) :=
  setEFStep_GInv (forwardSeed_GInv h hg hes)

theorem processTask_GInv :
    ∀ (fuel : Nat) (ts : List Task) (id : String), GInv ts → GInv (processTask fuel ts id) := by
  intro fuel
  induction fuel with
  | zero => intro ts id h; exact h
  | succ n ih =>
    intro ts id h
    simp only [processTask]
    cases hg : dictGet ts id with
    | none => exact h
    | some t =>
      simp only
      by_cases hs : t.early_start.isSome
      · rw [if_pos hs]; exact h
      · rw [if_neg hs]
        have hes : t.early_start = none := Option.not_isSome_iff_eq_none.mp hs
        exact foldl_pres (P := GInv)
          (fun ts2 a h2 => by
            split
            · exact ih ts2 a h2
            · exact h2)
          t.successors _ (forwardStep_GInv h hg hes)

theorem forward_pass_GInv {fuel : Nat} {ts : List Task} (h : GInv ts) :
    GInv (forward_pass fuel ts) := by
  unfold forward_pass
  exact foldl_pres (P := GInv)
    (fun ts2 a h2 => by
      cases hg : dictGet ts2 a with
      | none => exact h2
      | some t =>
        simp only
        by_cases hp : t.predecessors = []
        · rw [if_pos hp]; exact processTask_GInv fuel ts2 a h2
        · rw [if_neg hp]; exact h2)
    (ts.map Task.task_id) ts h

theorem backwardSeed_GInv {ts : List Task} {id : String} {t : Task}
    (h : GInv ts) (hg : dictGet ts id = some t) (hlf : t.late_finish = none) :
    GInv (backwardSeed ts id t) := by
  obtain ⟨nd, hall⟩ := h
  unfold backwardSeed
  split
  · exact dictSet_GInv_at nd hall (fun _ => rfl) fun u hu hid hp =>
      TInv_setLF hp (by rw [dictGet_unique nd hg u hu hid]; exact hlf)
  · split
    · exact dictSet_GInv_at nd hall (fun _ => rfl) fun u hu hid hp =>
        TInv_setLF hp (by rw [dictGet_unique nd hg u hu hid]; exact hlf)
    · exact dictSet_GInv_at nd hall (fun _ => rfl) fun u hu hid hp =>
        TInv_setLF hp (by rw [dictGet_unique nd hg u hu hid]; exact hlf)

theorem backwardStep_GInv {ts : List Task} {id : String} {t : Task}
    (h : GInv ts) (hg : dictGet ts id = some t) (hlf : t.late_finish = none) :
    GInv (backwardStep ts id t) := by
  have hls : t.late_start = none := by
    cases hx : t.late_start with
    | none => rfl
    | some a =>
      obtain ⟨b, hb, _⟩ := (h.2 t (dictGet_mem hg)).2.1 a hx
      rw [hlf] at hb
      cases hb
  have hseed : GInv (backwardSeed ts id t) := backwardSeed_GInv h hg hlf
  have hseedP : ∀ u ∈ backwardSeed ts id t, u.task_id = id → u.late_start = none := by
    apply backwardSeed_forall (P := fun u => u.task_id = id → u.late_start = none)
    · intro u hp; exact hp
    · intro u v hp; exact hp
    · intro u hu hid
      rw [dictGet_unique h.1 hg u hu hid]
      exact hls
  unfold backwardStep setLSStep
  cases hb : (dictGet (backwardSeed ts id t) id).bind Task.late_finish with
  | none => exact hseed
  | some lf =>
    cases hg1 : dictGet (backwardSeed ts id t) id with
    | none => rw [hg1] at hb; simp at hb
    | some t1 =>
      rw [hg1] at hb
      exact dictSet_GInv_at hseed.1 hseed.2 (fun _ => rfl) fun u hu hid _ => by
        rw [dictGet_unique hseed.1 hg1 u hu hid]
        exact TInv_setLS (hseed.2 t1 (dictGet_mem hg1)) hb
          (hseedP t1 (dictGet_mem hg1) (dictGet_key hg1))

theorem processTaskB_GInv :
    ∀ (fuel : Nat) (ts : List Task) (id : String), GInv ts → GInv (processTaskB fuel ts id) := by
  intro fuel
  induction fuel with
  | zero => intro ts id h; exact h
  | succ n ih =>
    intro ts id h
    simp only [processTaskB]
    cases hg : dictGet ts id with
    | none => exact h
    | some t =>
      simp only
      by_cases hs : t.late_finish.isSome
      · rw [if_pos hs]; exact h
      · rw [if_neg hs]
        have hlf : t.late_finish = none := Option.not_isSome_iff_eq_none.mp hs
        exact foldl_pres (P := GInv)
          (fun ts2 a h2 => by
            split
            · exact ih ts2 a h2
            · exact h2)
          t.predecessors _ (backwardStep_GInv h hg hlf)

theorem backward_pass_GInv {fuel : Nat} {ts ts2 : List Task}
    (h : GInv ts) (hlf : ∀ u ∈ ts, u.late_finish = none)
    (hok : backward_pass fuel ts = Except.ok ts2) : GInv ts2 := by
  unfold backward_pass at hok
  by_cases hend : ((ts.filter fun t => t.successors = []).map Task.task_id) = []
  · rw [if_pos hend] at hok
    cases hmax : maxByEarlyFinish ts with
    | error e => rw [hmax] at hok; exact Except.noConfusion hok
    | ok latest =>
      rw [hmax] at hok
      simp only at hok
      have hts2 := Except.ok.inj hok
      rw [← hts2]
      apply processTaskB_GInv
      exact ⟨idsNodup_dictSet (fun u _ _ => rfl) h.1,
        dictSet_forall h.2 fun u hu _ hp => TInv_setLF hp (hlf u hu)⟩
  · rw [if_neg hend] at hok
    have hts2 := Except.ok.inj hok
    rw [← hts2]
    exact foldl_pres (P := GInv)
      (fun ts3 a h2 => processTaskB_GInv fuel ts3 a h2) _ ts h

theorem calcTFStep_GInv {st : List String × List Task} {id : String} {t : Task}
    (h : GInv st.2) (hg : dictGet st.2 id = some t) :
    GInv (calcTFStep st id t).2 := by
  unfold calcTFStep
  cases hes : t.early_start with
  | none => exact h
  | some es =>
    cases hls : t.late_start with
    | none => exact h
    | some ls =>
      simp only
      exact dictSet_GInv_at h.1 h.2 (fun _ => rfl) fun u hu hid _ => by
        rw [dictGet_unique h.1 hg u hu hid]
        exact TInv_setTF (h.2 t (dictGet_mem hg)) hes hls

theorem calcFFStep_GInv {st st2 : List String × List Task} {id : String}
    (h : GInv st.2) (hok : calcFFStep st id = Except.ok st2) : GInv st2.2 := by
  unfold calcFFStep at hok
  cases hg : dictGet st.2 id with
  | none =>
    rw [hg] at hok
    have := Except.ok.inj hok
    rw [← this]
    exact h
  | some t1 =>
    rw [hg] at hok
    simp only at hok
    by_cases hsink : t1.successors = []
    · rw [if_pos hsink] at hok
      have := Except.ok.inj hok
      rw [← this]
      exact ⟨idsNodup_dictSet (fun u _ _ => rfl) h.1,
        dictSet_forall h.2 fun u _ _ hp => TInv_setFF u.total_float hp⟩
    · rw [if_neg hsink] at hok
      cases hfil : (t1.successors.filter fun s => dictContains st.2 s) with
      | nil => rw [hfil] at hok; exact Except.noConfusion hok
      | cons s0 srest =>
        rw [hfil] at hok
        simp only at hok
        split at hok
        · have := Except.ok.inj hok
          rw [← this]
          exact ⟨idsNodup_dictSet (fun u _ _ => rfl) h.1,
            dictSet_forall h.2 fun u _ _ hp => TInv_setFF _ hp⟩
        · exact Except.noConfusion hok

theorem calcStep_GInv {st st2 : List String × List Task} {id : String}
    (h : GInv st.2) (hok : calcStep st id = Except.ok st2) : GInv st2.2 := by
  unfold calcStep at hok
  cases hg : dictGet st.2 id with
  | none =>
    rw [hg] at hok
    have := Except.ok.inj hok
    rw [← this]
    exact h
  | some t =>
    rw [hg] at hok
    exact calcFFStep_GInv (calcTFStep_GInv h hg) hok

theorem calculate_GInv {ts : List Task} {cp : List String} {ts2 : List Task}
    (h : GInv ts) (hok : calculate_floats_and_critical_path ts = Except.ok (cp, ts2)) :
    GInv ts2 := by
  unfold calculate_floats_and_critical_path at hok
  exact foldlM_pres (P := fun st => GInv st.2)
    (fun s a s2 hp hstep => calcStep_GInv hp hstep)
    (ts.map Task.task_id) ([], ts) (cp, ts2) hok h

theorem engineTasks_GInv {fuel : Nat} {rows : List TaskRec} {cp : List String} {ts : List Task}
    (hok : engineTasks fuel rows = Except.ok (cp, ts)) : GInv ts := by
  unfold engineTasks at hok
  cases hbw : backward_pass fuel (forward_pass fuel (create_task_objects rows)) with
  | error e => rw [hbw] at hok; exact Except.noConfusion hok
  | ok ts1 =>
    rw [hbw] at hok
    have h1 : GInv (forward_pass fuel (create_task_objects rows)) :=
      forward_pass_GInv create_GInv
    have hlf : ∀ u ∈ forward_pass fuel (create_task_objects rows), u.late_finish = none :=
      forward_pass_forall (P := fun u => u.late_finish = none)
        (fun _ _ hp => hp) (fun _ _ hp => hp)
        (fun u hu => (create_fresh u hu).2.2.2.1)
    exact calculate_GInv (backward_pass_GInv h1 hlf hbw) hok

/-- C1.  The claim says that after the forward pass every task with a
non-dangling predecessor has early_start equal to the max of the
early_finish of ALL its predecessors, regardless of traversal order.  On
rowsBAC the code gives C early_start 2 — the early_finish of B, the only
predecessor computed when C was first reached — although its predecessor A
has early_finish 5, so the claimed maximum is 5.  The traversal-order
sensitive memoized recursion contradicts the intent the spec states
(visit a task only after all predecessors, mandatory topological order). -/
theorem claim_c1_forward_pass_wrong_early_start :
    ((dictGet (forward_pass 10 (create_task_objects rowsBAC)) "C").bind Task.early_start
        = some 2)
    ∧ ((dictGet (forward_pass 10 (create_task_objects rowsBAC)) "C").map Task.predecessors
        = some ["A", "B"])
    ∧ ((dictGet (forward_pass 10 (create_task_objects rowsBAC)) "A").bind Task.early_finish
        = some 5)
    ∧ ((dictGet (forward_pass 10 (create_task_objects rowsBAC)) "B").bind Task.early_finish
        = some 2)
    ∧ ¬ ((dictGet (forward_pass 10 (create_task_objects rowsBAC)) "C").bind Task.early_start
        = some (listMax 5 [2])) := by
  refine ⟨by decide, by decide, by decide, by decide, by decide⟩

/-- C2, counterexample.  rowsCycle contains the cycle B → C → B, yet the
engine raises no error at all: the run returns a populated results table
(three rows, the tasks of the cycle keeping undefined late_start), and an
empty critical path — partial results, not a CycleDetected failure. -/
theorem claim_c2_counterexample :
    (perform_critical_path_analysis 10 rowsCycle).isOk = true
    ∧ (resultRows (perform_critical_path_analysis 10 rowsCycle)).length = 3
    ∧ ((findRow (perform_critical_path_analysis 10 rowsCycle) "B").bind ResultRow.late_start
        = none)
    ∧ ((findRow (perform_critical_path_analysis 10 rowsCycle) "B").bind ResultRow.early_start
        = some 1) := by
  refine ⟨by decide, by decide, by decide, by decide⟩

/-- C2, amended: no cycle detection exists; on a cyclic input that still
has a task without successors reachable story — here the cycle B → C → B
with source A and no sink — the backward-pass fallback seeds only the task
with the greatest early_finish and returns immediately, so the run
completes and hands back a full table in which every late_start is
undefined and only C has a late_finish, with an empty critical path. -/
theorem claim_c2_amended_no_cycle_error :
    perform_critical_path_analysis 10 rowsCycle = Except.ok ([
      { task_id := "A", task_name := "ay", early_start := some 0, early_finish := some 1,
        late_start := none, late_finish := none, total_float := none,
        free_float := some 0, is_critical := false },
      { task_id := "B", task_name := "bee", early_start := some 1, early_finish := some 2,
        late_start := none, late_finish := none, total_float := none,
        free_float := some 0, is_critical := false },
      { task_id := "C", task_name := "cee", early_start := some 2, early_finish := some 3,
        late_start := none, late_finish := some 3, total_float := none,
        free_float := some (-2), is_critical := false }], []) := by
  rfl

/-- C3, counterexample.  rowsBAC is a permutation of rowsABC, yet the two
runs disagree on a computed field: C gets early_start 2 in one and 5 in
the other, so the output is not invariant under input record ordering. -/
theorem claim_c3_counterexample :
    rowsBAC.Perm rowsABC
    ∧ ((findRow (perform_critical_path_analysis 10 rowsBAC) "C").bind ResultRow.early_start
        = some 2)
    ∧ ((findRow (perform_critical_path_analysis 10 rowsABC) "C").bind ResultRow.early_start
        = some 5) := by
  refine ⟨by decide, by decide, by decide⟩

/-- C3, amended: two runs on the identical record sequence produce
identical output (the engine is a pure function of its input), but the
order-independence half of the claim fails (see the counterexample). -/
theorem claim_c3_amended_determinism (fuel : Nat) (rows : List TaskRec) :
    perform_critical_path_analysis fuel rows = perform_critical_path_analysis fuel rows :=
  rfl

/-- C4, counterexample.  Two records share the id X; the engine does not
fail: the run succeeds, the table has a single row, and it carries the
name of the second record — the earlier record was silently overwritten. -/
theorem claim_c4_counterexample :
    (perform_critical_path_analysis 10 rowsDup).isOk = true
    ∧ (resultRows (perform_critical_path_analysis 10 rowsDup)).length = 1
    ∧ ((findRow (perform_critical_path_analysis 10 rowsDup) "X").map ResultRow.task_name
        = some "second") := by
  refine ⟨by decide, by decide, by decide⟩

/-- C4, amended: a duplicate id is not an error; tasks[task.task_id] = task
replaces the earlier Task in place, so the later record wins and the run
continues on the merged table. -/
theorem claim_c4_amended_silent_overwrite :
    (create_task_objects rowsDup).map Task.name = ["second"]
    ∧ (create_task_objects rowsDup).map Task.duration = [3]
    ∧ (perform_critical_path_analysis 10 rowsDup).isOk = true := by
  refine ⟨by decide, by decide, by decide⟩

/-- C5, counterexample.  B references the undefined predecessor X.  No
diagnostic value exists anywhere in the engine output; the reference is
NOT removed from predecessors; and B is not processed as if the
predecessor were absent: a predecessor-free B would be seeded with
early_start = planned_start = 0, but B keeps early_start undefined because
the forward pass only seeds tasks whose predecessor list is empty. -/
theorem claim_c5_counterexample :
    ((dictGet (create_task_objects rowsDangling) "B").map Task.predecessors = some ["X"])
    ∧ ((findRow (perform_critical_path_analysis 10 rowsDangling) "B").bind
        ResultRow.early_start = none)
    ∧ ((findRow (perform_critical_path_analysis 10 rowsDangling) "B").map
        ResultRow.task_id = some "B")
    ∧ (perform_critical_path_analysis 10 rowsDangling).isOk = true := by
  refine ⟨by decide, by decide, by decide, by decide⟩

/-- C5, amended: a dangling predecessor reference is kept in predecessors
and merely skipped when adjacency and predecessor finishes are collected;
no diagnostic is recorded (no diagnostics list exists); the run is not
aborted, and a task all of whose predecessors are dangling is never
seeded, ending with every computed field undefined. -/
theorem claim_c5_amended_dangling_skipped :
    perform_critical_path_analysis 10 rowsDangling = Except.ok ([
      { task_id := "A", task_name := "ay", early_start := some 0, early_finish := some 2,
        late_start := some 0, late_finish := some 2, total_float := some 0,
        free_float := some 0, is_critical := true },
      { task_id := "B", task_name := "bee", early_start := none, early_finish := none,
        late_start := none, late_finish := none, total_float := none,
        free_float := none, is_critical := false }], ["A"]) := by
  rfl

/-- C6, counterexample.  In rowsDiamond the non-sink X has the successors
Y and Z with late_start 1 and 5; the claim requires late_finish of X to be
the min over ALL successors, 1, but the code reaches X through Z first and
computes the min over the successors already carrying a late_start,
yielding 5. -/
theorem claim_c6_counterexample :
    ((engineTaskGet (backward_pass 10 (forward_pass 10 (create_task_objects rowsDiamond))
        |>.map (fun ts => ([], ts))) "X").map Task.successors = some ["Y", "Z"])
    ∧ ((engineTaskGet (backward_pass 10 (forward_pass 10 (create_task_objects rowsDiamond))
        |>.map (fun ts => ([], ts))) "Y").bind Task.late_start = some 1)
    ∧ ((engineTaskGet (backward_pass 10 (forward_pass 10 (create_task_objects rowsDiamond))
        |>.map (fun ts => ([], ts))) "Z").bind Task.late_start = some 5)
    ∧ ((engineTaskGet (backward_pass 10 (forward_pass 10 (create_task_objects rowsDiamond))
        |>.map (fun ts => ([], ts))) "X").bind Task.late_finish = some 5)
    ∧ ¬ ((engineTaskGet (backward_pass 10 (forward_pass 10 (create_task_objects rowsDiamond))
        |>.map (fun ts => ([], ts))) "X").bind Task.late_finish = some (listMin 1 [5])) := by
  refine ⟨by decide, by decide, by decide, by decide, by decide⟩

/-- C9, counterexample.  On rowsNegFloat the resolved task T ends with
total_float -3 and free_float 0, so free_float ≤ total_float fails. -/
theorem claim_c9_counterexample :
    ((findRow (perform_critical_path_analysis 10 rowsNegFloat) "T").bind
        ResultRow.total_float = some (-3))
    ∧ ((findRow (perform_critical_path_analysis 10 rowsNegFloat) "T").bind
        ResultRow.free_float = some 0)
    ∧ ¬ ((0 : Int) ≤ -3) := by
  refine ⟨by decide, by decide, by decide⟩

/-- C10, counterexample.  On rowsChainRev both tasks are critical and the
only successor edge is A → B, but the returned critical path is ["B", "A"]
— the dict iteration order — whose consecutive pair does not follow a
successor edge, so the path is not ordered from critical sources to
critical sinks. -/
theorem claim_c10_counterexample :
    engineCP (engineTasks 10 rowsChainRev) = ["B", "A"]
    ∧ ((engineTaskGet (engineTasks 10 rowsChainRev) "A").map Task.is_critical = some true)
    ∧ ((engineTaskGet (engineTasks 10 rowsChainRev) "B").map Task.is_critical = some true)
    ∧ ((engineTaskGet (engineTasks 10 rowsChainRev) "A").map Task.successors = some ["B"])
    ∧ follows_successor_edges (engineTaskList (engineTasks 10 rowsChainRev))
        (engineCP (engineTasks 10 rowsChainRev)) = false := by
  refine ⟨by decide, by decide, by decide, by decide, by decide⟩

/-- C7.  For every successful run of the engine pipeline and every task
whose early_start, early_finish, late_start, late_finish and total_float
are all resolved: early_finish - early_start equals the duration,
late_finish - late_start equals the duration, and total_float equals both
late_start - early_start and late_finish - early_finish. -/
theorem claim_c7_float_identities (fuel : Nat) (rows : List TaskRec) (cp : List String)
    (ts : List Task) (hok : engineTasks fuel rows = Except.ok (cp, ts)) :
    ∀ t ∈ ts, ∀ es ef ls lf tf : Int,
      t.early_start = some es → t.early_finish = some ef →
      t.late_start = some ls → t.late_finish = some lf →
      t.total_float = some tf →
      ef - es = t.duration ∧ lf - ls = t.duration ∧ tf = ls - es ∧ tf = lf - ef := by
  intro t ht es ef ls lf tf hes hef hls hlf htf
  obtain ⟨h1, h2, h3, _⟩ := (engineTasks_GInv hok).2 t ht
  obtain ⟨b, hb, hbe⟩ := h1 ef hef
  rw [hes] at hb
  have hb2 : es = b := Option.some.inj hb
  obtain ⟨c, hc, hce⟩ := h2 ls hls
  rw [hlf] at hc
  have hc2 : lf = c := Option.some.inj hc
  obtain ⟨es2, ls2, hes2, hls2, htfe⟩ := h3 tf htf
  rw [hes] at hes2
  rw [hls] at hls2
  have hes3 : es = es2 := Option.some.inj hes2
  have hls3 : ls = ls2 := Option.some.inj hls2
  refine ⟨by omega, by omega, by omega, by omega⟩

/-- C7 witness: the theorem applied to task A of the rowsChain run, whose
resolved fields are early_start 0, early_finish 2, late_start 0,
late_finish 2, total_float 0 and duration 2. -/
theorem claim_c7_witness :
    (2 : Int) - 0 = chainTaskA.duration ∧ (2 : Int) - 0 = chainTaskA.duration
      ∧ (0 : Int) = 0 - 0 ∧ (0 : Int) = 2 - 2 := by
  have hok : engineTasks 10 rowsChain = Except.ok (["A", "B", "C"], chainTasks) := by rfl
  exact claim_c7_float_identities 10 rowsChain ["A", "B", "C"] chainTasks hok
    chainTaskA (by simp [chainTasks]) 0 2 0 2 0 rfl rfl rfl rfl rfl

/-- C8.  For every successful run and every returned row, is_critical is
true exactly when total_float is (exactly) zero: the code sets the flag
with `task.is_critical = task.total_float == 0` for resolved tasks, and
leaves the initial False flag and None float for unresolved ones, so the
equivalence holds for every task of every successful run. -/
theorem claim_c8_critical_iff_zero_float (fuel : Nat) (rows : List TaskRec)
    (res : List ResultRow) (cp : List String)
    (hok : perform_critical_path_analysis fuel rows = Except.ok (res, cp)) :
    ∀ r ∈ res, r.is_critical = true ↔ r.total_float = some 0 := by
  intro r hr
  unfold perform_critical_path_analysis at hok
  cases heng : engineTasks fuel rows with
  | error e => rw [heng] at hok; exact Except.noConfusion hok
  | ok pr =>
    rw [heng] at hok
    simp only at hok
    have hres : pr.2.map toResultRow = res := congrArg Prod.fst (Except.ok.inj hok)
    rw [← hres] at hr
    rcases List.mem_map.mp hr with ⟨t, ht, rfl⟩
    have heq : engineTasks fuel rows = Except.ok (pr.1, pr.2) := by rw [heng]
    exact ((engineTasks_GInv heq).2 t ht).2.2.2

/-- C8 witness: the theorem applied to row A of the rowsChain run, which
is critical with total_float 0. -/
theorem claim_c8_witness :
    chainRowA.is_critical = true ↔ chainRowA.total_float = some 0 := by
  have hok : perform_critical_path_analysis 10 rowsChain
      = Except.ok (chainResult, ["A", "B", "C"]) := by rfl
  exact claim_c8_critical_iff_zero_float 10 rowsChain chainResult ["A", "B", "C"] hok
    chainRowA (by simp [chainResult])

theorem backwardStep_SinkDisj {ts : List Task} {id : String} {t : Task}
    (hG : GInv ts) (hg : dictGet ts id = some t)
    (hall : ∀ u ∈ ts, SinkDisj u) : ∀ u ∈ backwardStep ts id t, SinkDisj u := by
  have hseed : ∀ u ∈ backwardSeed ts id t, SinkDisj u := by
    by_cases hs : t.successors = []
    · unfold backwardSeed
      rw [if_pos hs]
      exact dictSet_forall hall fun u _ _ _ => fun _ => Or.inr rfl
    · unfold backwardSeed
      rw [if_neg hs]
      cases hm : (t.successors.filterMap fun s =>
          match dictGet ts s with
          | some u => u.late_start
          | none => none) with
      | nil => exact dictSet_forall hall fun u _ _ _ => fun _ => Or.inr rfl
      | cons x xs =>
        apply dictSet_forall hall
        intro u hu hid _ habs
        exfalso
        have he := dictGet_unique hG.1 hg u hu hid
        apply hs
        rw [← he]
        exact habs
  exact setLSStep_forall (fun _ _ hp => hp) hseed

theorem processTaskB_Binv :
    ∀ (fuel : Nat) (ts : List Task) (id : String),
      GInv ts ∧ (∀ u ∈ ts, SinkDisj u) →
      GInv (processTaskB fuel ts id) ∧ ∀ u ∈ processTaskB fuel ts id, SinkDisj u := by
  intro fuel
  induction fuel with
  | zero => intro ts id h; exact h
  | succ n ih =>
    intro ts id h
    simp only [processTaskB]
    cases hg : dictGet ts id with
    | none => exact h
    | some t =>
      simp only
      by_cases hs : t.late_finish.isSome
      · rw [if_pos hs]; exact h
      · rw [if_neg hs]
        have hlf : t.late_finish = none := Option.not_isSome_iff_eq_none.mp hs
        exact foldl_pres (P := fun l => GInv l ∧ ∀ u ∈ l, SinkDisj u)
          (fun ts2 a h2 => by
            split
            · exact ih ts2 a h2
            · exact h2)
          t.predecessors _
          ⟨backwardStep_GInv h.1 hg hlf, backwardStep_SinkDisj h.1 hg h.2⟩

/-- The task with the pinned id, if it is a sink, already carries its own
early_finish as late_finish. -/
def SinkDoneAt (id0 : String) (t : Task) : Prop :=
  t.task_id = id0 → t.successors = [] → t.late_finish = t.early_finish

theorem backwardStep_sinkdone {id0 : String} {ts : List Task} {id : String} {t : Task}
    (hG : GInv ts) (hg : dictGet ts id = some t)
    (hall : ∀ u ∈ ts, SinkDoneAt id0 u) : ∀ u ∈ backwardStep ts id t, SinkDoneAt id0 u := by
  have hseed : ∀ u ∈ backwardSeed ts id t, SinkDoneAt id0 u := by
    by_cases hs : t.successors = []
    · unfold backwardSeed
      rw [if_pos hs]
      exact dictSet_forall hall fun u _ _ _ => fun _ _ => rfl
    · unfold backwardSeed
      rw [if_neg hs]
      cases hm : (t.successors.filterMap fun s =>
          match dictGet ts s with
          | some u => u.late_start
          | none => none) with
      | nil => exact dictSet_forall hall fun u _ _ _ => fun _ _ => rfl
      | cons x xs =>
        apply dictSet_forall hall
        intro u hu hid _ _ habs
        exfalso
        have he := dictGet_unique hG.1 hg u hu hid
        apply hs
        rw [← he]
        exact habs
  exact setLSStep_forall (fun _ _ hp => hp) hseed

theorem processTaskB_sinkdone (id0 : String) :
    ∀ (fuel : Nat) (ts : List Task) (id : String),
      GInv ts ∧ (∀ u ∈ ts, SinkDoneAt id0 u) →
      GInv (processTaskB fuel ts id) ∧ ∀ u ∈ processTaskB fuel ts id, SinkDoneAt id0 u := by
  intro fuel
  induction fuel with
  | zero => intro ts id h; exact h
  | succ n ih =>
    intro ts id h
    simp only [processTaskB]
    cases hg : dictGet ts id with
    | none => exact h
    | some t =>
      simp only
      by_cases hs : t.late_finish.isSome
      · rw [if_pos hs]; exact h
      · rw [if_neg hs]
        have hlf : t.late_finish = none := Option.not_isSome_iff_eq_none.mp hs
        exact foldl_pres (P := fun l => GInv l ∧ ∀ u ∈ l, SinkDoneAt id0 u)
          (fun ts2 a h2 => by
            split
            · exact ih ts2 a h2
            · exact h2)
          t.predecessors _
          ⟨backwardStep_GInv h.1 hg hlf, backwardStep_sinkdone h.1 hg h.2⟩

theorem processTaskB_establish {fuel : Nat} {ts : List Task} {id : String}
    (hf : 0 < fuel) (hG : GInv ts) (hdisj : ∀ u ∈ ts, SinkDisj u) :
    ∀ u ∈ processTaskB fuel ts id, SinkDoneAt id u := by
  cases fuel with
  | zero => exact (Nat.lt_irrefl 0 hf).elim
  | succ n =>
    simp only [processTaskB]
    cases hg : dictGet ts id with
    | none =>
      intro u hu hid
      exact absurd hid (dictGet_none hg u hu)
    | some t =>
      simp only
      by_cases hs : t.late_finish.isSome
      · rw [if_pos hs]
        intro u hu hid hsink
        have hut : u = t := dictGet_unique hG.1 hg u hu hid
        rcases hdisj u hu hsink with hn | he
        · exfalso
          rw [hut] at hn
          rw [hn] at hs
          simp at hs
        · exact he
      · rw [if_neg hs]
        have hlf : t.late_finish = none := Option.not_isSome_iff_eq_none.mp hs
        have hbase : ∀ u ∈ backwardStep ts id t, SinkDoneAt id u := by
          have hseed : ∀ u ∈ backwardSeed ts id t, SinkDoneAt id u := by
            by_cases hsk : t.successors = []
            · unfold backwardSeed
              rw [if_pos hsk]
              intro u hu
              rcases mem_dictSet_cases hu with ⟨v, _, _, rfl⟩ | ⟨_, hne⟩
              · exact fun _ _ => rfl
              · exact fun hid => absurd hid hne
            · unfold backwardSeed
              rw [if_neg hsk]
              cases hm : (t.successors.filterMap fun s =>
                  match dictGet ts s with
                  | some u => u.late_start
                  | none => none) with
              | nil =>
                intro u hu
                rcases mem_dictSet_cases hu with ⟨v, _, _, rfl⟩ | ⟨_, hne⟩
                · exact fun _ _ => rfl
                · exact fun hid => absurd hid hne
              | cons x xs =>
                intro u hu
                rcases mem_dictSet_cases hu with ⟨v, hv, hvid, rfl⟩ | ⟨_, hne⟩
                · intro _ habs
                  exfalso
                  have he := dictGet_unique hG.1 hg v hv hvid
                  apply hsk
                  rw [← he]
                  exact habs
                · exact fun hid => absurd hid hne
          exact setLSStep_forall (fun _ _ hp => hp) hseed
        have hGb : GInv (backwardStep ts id t) := backwardStep_GInv hG hg hlf
        exact (foldl_pres (P := fun l => GInv l ∧ ∀ u ∈ l, SinkDoneAt id u)
          (fun ts2 a h2 => by
            split
            · exact processTaskB_sinkdone id n ts2 a h2
            · exact h2)
          t.predecessors _ ⟨hGb, hbase⟩).2

theorem backward_fold_sinks {fuel : Nat} (hf : 0 < fuel) :
    ∀ (l : List String) (ts : List Task),
      GInv ts ∧ (∀ u ∈ ts, SinkDisj u) →
      (∀ u ∈ ts, u.successors = [] → u.late_finish = u.early_finish ∨
        (u.late_finish = none ∧ u.task_id ∈ l)) →
      ∀ u ∈ l.foldl (fun acc id => processTaskB fuel acc id) ts, SinkSeeded u := by
  intro l
  induction l with
  | nil =>
    intro ts _ hpre u hu hsink
    rcases hpre u hu hsink with he | ⟨_, habs⟩
    · exact he
    · cases habs
  | cons id rest ih =>
    intro ts hB hpre u hu
    rw [List.foldl_cons] at hu
    refine ih (processTaskB fuel ts id) (processTaskB_Binv fuel ts id hB) ?_ u hu
    intro u2 hu2 hsink
    by_cases hcase : u2.task_id = id
    · exact Or.inl (processTaskB_establish hf hB.1 hB.2 u2 hu2 hcase hsink)
    · by_cases hmem : u2.task_id ∈ rest
      · rcases (processTaskB_Binv fuel ts id hB).2 u2 hu2 hsink with hn | he
        · exact Or.inr ⟨hn, hmem⟩
        · exact Or.inl he
      · have hpin : ∀ v ∈ ts, SinkDoneAt u2.task_id v := by
          intro v hv hvid hvsink
          rcases hpre v hv hvsink with he | ⟨_, hmem2⟩
          · exact he
          · rcases List.mem_cons.mp hmem2 with h1 | h1
            · exact absurd (by rw [← hvid]; exact h1) hcase
            · exact absurd (hvid ▸ h1) hmem
        exact Or.inl
          ((processTaskB_sinkdone u2.task_id fuel ts id ⟨hB.1, hpin⟩).2 u2 hu2 rfl hsink)

theorem backward_pass_sinks {fuel : Nat} {ts ts2 : List Task}
    (hf : 0 < fuel) (hG : GInv ts)
    (hlateU : ∀ u ∈ ts, u.late_finish = none)
    (hok : backward_pass fuel ts = Except.ok ts2) :
    ∀ u ∈ ts2, SinkSeeded u := by
  unfold backward_pass at hok
  by_cases hend : ((ts.filter fun t => t.successors = []).map Task.task_id) = []
  · rw [if_pos hend] at hok
    have hfil : (ts.filter fun t => t.successors = []) = [] := List.map_eq_nil_iff.mp hend
    have hnos : ∀ u ∈ ts, u.successors ≠ [] := by
      intro u hu habs
      have hmem : u ∈ ts.filter fun t => t.successors = [] :=
        List.mem_filter.mpr ⟨hu, by simpa using habs⟩
      rw [hfil] at hmem
      cases hmem
    cases hmax : maxByEarlyFinish ts with
    | error e => rw [hmax] at hok; exact Except.noConfusion hok
    | ok latest =>
      rw [hmax] at hok
      simp only at hok
      have hts2 := Except.ok.inj hok
      rw [← hts2]
      have h1 : ∀ u ∈ dictSet ts latest.task_id
          (fun u => { u with late_finish := u.early_finish }), u.successors ≠ [] :=
        dictSet_forall hnos fun u _ _ hp => hp
      have h2 : ∀ u ∈ processTaskB fuel (dictSet ts latest.task_id
          (fun u => { u with late_finish := u.early_finish })) latest.task_id,
          u.successors ≠ [] :=
        processTaskB_forall (fun _ hp => hp) (fun _ _ hp => hp) (fun _ _ hp => hp)
          fuel _ _ h1
      intro u hu hsink
      exact absurd hsink (h2 u hu)
  · rw [if_neg hend] at hok
    have hts2 := Except.ok.inj hok
    rw [← hts2]
    apply backward_fold_sinks hf _ ts ⟨hG, fun u hu hsink => Or.inl (hlateU u hu)⟩
    intro u hu hsink
    exact Or.inr ⟨hlateU u hu,
      List.mem_map_of_mem Task.task_id (List.mem_filter.mpr ⟨hu, by simpa using hsink⟩)⟩

/-- C6, amended: every sink task (no successors) is seeded individually
with its own early_finish as late_finish, with no unification across
sinks — this half of the claim holds on the code.  The rest of the claim
fails (see the counterexample): a non-sink task receives the min over only
those successors whose late_start was already computed when it was first
reached, an uncomputed or absent successor is silently skipped rather than
raising CycleDetected or InternalInconsistency, and when no successor is
computed the code falls back to late_finish = early_finish. -/
theorem claim_c6_amended_sink_seeding (fuel : Nat) (rows : List TaskRec) (ts2 : List Task)
    (hf : 0 < fuel)
    (hok : backward_pass fuel (forward_pass fuel (create_task_objects rows))
      = Except.ok ts2) :
    ∀ t ∈ ts2, t.successors = [] → t.late_finish = t.early_finish := by
  have hG : GInv (forward_pass fuel (create_task_objects rows)) :=
    forward_pass_GInv create_GInv
  have hlf : ∀ u ∈ forward_pass fuel (create_task_objects rows), u.late_finish = none :=
    forward_pass_forall (P := fun u => u.late_finish = none)
      (fun _ _ hp => hp) (fun _ _ hp => hp)
      (fun u hu => (create_fresh u hu).2.2.2.1)
  exact fun t ht => backward_pass_sinks hf hG hlf hok t ht

/-- C6 witness: the theorem applied to the sink task W of the rowsDiamond
backward pass, whose late_finish equals its early_finish 7. -/
theorem claim_c6_witness :
    (0 : Nat) < 10 ∧ diamondTaskW.late_finish = diamondTaskW.early_finish := by
  constructor
  · decide
  · have hok : backward_pass 10 (forward_pass 10 (create_task_objects rowsDiamond))
        = Except.ok diamondBW := by rfl
    exact claim_c6_amended_sink_seeding 10 rowsDiamond diamondBW (by decide) hok
      diamondTaskW (by simp [diamondBW]) rfl

theorem calcTFStep_map_id {st : List String × List Task} {id : String} {t : Task} :
    (calcTFStep st id t).2.map Task.task_id = st.2.map Task.task_id := by
  unfold calcTFStep
  cases t.early_start with
  | none => rfl
  | some es =>
    cases t.late_start with
    | none => rfl
    | some ls => exact dictSet_map_id fun u _ _ => rfl

theorem calcStep_SFE {st st2 : List String × List Task} {id : String}
    (hG : GInv st.2) (hS : ∀ u ∈ st.2, SinkFloatEq u)
    (hok : calcStep st id = Except.ok st2) :
    ∀ u ∈ st2.2, SinkFloatEq u := by
  unfold calcStep at hok
  cases hg : dictGet st.2 id with
  | none =>
    rw [hg] at hok
    have := Except.ok.inj hok
    rw [← this]
    exact hS
  | some t =>
    rw [hg] at hok
    simp only at hok
    have hG1 : GInv (calcTFStep st id t).2 := calcTFStep_GInv hG hg
    have hS1 : ∀ u ∈ (calcTFStep st id t).2, u.task_id ≠ id → SinkFloatEq u := by
      intro u hu hne
      unfold calcTFStep at hu
      cases hes : t.early_start with
      | none => rw [hes] at hu; exact hS u hu
      | some es =>
        cases hls : t.late_start with
        | none => rw [hes, hls] at hu; exact hS u hu
        | some ls =>
          rw [hes, hls] at hu
          simp only at hu
          rcases mem_dictSet_cases hu with ⟨v, _, hvid, rfl⟩ | ⟨hu2, _⟩
          · exact absurd hvid hne
          · exact hS u hu2
    unfold calcFFStep at hok
    cases hg1 : dictGet (calcTFStep st id t).2 id with
    | none =>
      exfalso
      have hmem : id ∈ (calcTFStep st id t).2.map Task.task_id := by
        rw [calcTFStep_map_id]
        rw [← dictGet_key hg]
        exact List.mem_map_of_mem Task.task_id (dictGet_mem hg)
      have hcon : dictContains (calcTFStep st id t).2 id = true :=
        dictContains_iff.mpr hmem
      unfold dictContains at hcon
      rw [hg1] at hcon
      simp at hcon
    | some t1 =>
      rw [hg1] at hok
      simp only at hok
      by_cases hsink : t1.successors = []
      · rw [if_pos hsink] at hok
        have := Except.ok.inj hok
        rw [← this]
        intro u hu
        rcases mem_dictSet_cases hu with ⟨v, _, _, rfl⟩ | ⟨hu2, hne⟩
        · exact fun _ => rfl
        · exact hS1 u hu2 hne
      · rw [if_neg hsink] at hok
        cases hfil : (t1.successors.filter fun s => dictContains (calcTFStep st id t).2 s) with
        | nil => rw [hfil] at hok; exact Except.noConfusion hok
        | cons s0 srest =>
          rw [hfil] at hok
          simp only at hok
          split at hok
          · have := Except.ok.inj hok
            rw [← this]
            intro u hu
            rcases mem_dictSet_cases hu with ⟨v, hv, hvid, rfl⟩ | ⟨hu2, hne⟩
            · intro habs
              exfalso
              have he : v = t1 := dictGet_unique hG1.1 hg1 v hv hvid
              apply hsink
              rw [← he]
              exact habs
            · exact hS1 u hu2 hne
          · exact Except.noConfusion hok

/-- C9, amended: every task without successors ends with free_float equal
to total_float (the code copies the value).  The inequality half of the
claim, free_float ≤ total_float for every task, fails on the code (see
the counterexample with free_float 0 and total_float -3). -/
theorem claim_c9_amended_sink_float (fuel : Nat) (rows : List TaskRec) (cp : List String)
    (ts : List Task) (hok : engineTasks fuel rows = Except.ok (cp, ts)) :
    ∀ t ∈ ts, t.successors = [] → t.free_float = t.total_float := by
  unfold engineTasks at hok
  cases hbw : backward_pass fuel (forward_pass fuel (create_task_objects rows)) with
  | error e => rw [hbw] at hok; exact Except.noConfusion hok
  | ok ts1 =>
    rw [hbw] at hok
    have hG1 : GInv ts1 :=
      backward_pass_GInv (forward_pass_GInv create_GInv)
        (forward_pass_forall (P := fun u => u.late_finish = none)
          (fun _ _ hp => hp) (fun _ _ hp => hp)
          (fun u hu => (create_fresh u hu).2.2.2.1))
        hbw
    have hfu : ∀ u ∈ ts1, floatUnset u :=
      backward_pass_forall (P := floatUnset)
        (fun _ hp => hp) (fun _ _ hp => hp) (fun _ _ hp => hp) hbw
        (forward_pass_forall (P := floatUnset)
          (fun _ _ hp => hp) (fun _ _ hp => hp)
          (fun u hu => ⟨(create_fresh u hu).2.2.2.2.1, (create_fresh u hu).2.2.2.2.2.1⟩))
    have hS1 : ∀ u ∈ ts1, SinkFloatEq u := by
      intro u hu _
      rw [(hfu u hu).2, (hfu u hu).1]
    unfold calculate_floats_and_critical_path at hok
    exact fun t ht =>
      (foldlM_pres (P := fun st => GInv st.2 ∧ ∀ u ∈ st.2, SinkFloatEq u)
        (fun s a s2 hp hstep => ⟨calcStep_GInv hp.1 hstep, calcStep_SFE hp.1 hp.2 hstep⟩)
        (ts1.map Task.task_id) ([], ts1) (cp, ts) hok ⟨hG1, hS1⟩).2 t ht

/-- C9 witness: the theorem applied to the sink task C of the rowsChain
run, whose free_float and total_float are both 0. -/
theorem claim_c9_witness : chainTaskC.free_float = chainTaskC.total_float := by
  have hok : engineTasks 10 rowsChain = Except.ok (["A", "B", "C"], chainTasks) := by rfl
  exact claim_c9_amended_sink_float 10 rowsChain ["A", "B", "C"] chainTasks hok
    chainTaskC (by simp [chainTasks]) rfl

theorem dictGet_append_here {done rest : List Task} {r : Task}
    (nd : IdsNodup (done ++ r :: rest)) :
    dictGet (done ++ r :: rest) r.task_id = some r := by
  induction done with
  | nil =>
    unfold dictGet
    rw [List.nil_append]
    apply List.find?_cons_of_pos
    simp
  | cons d done' ih =>
    have ndt : IdsNodup (done' ++ r :: rest) := by
      unfold IdsNodup at nd ⊢
      rw [List.cons_append, List.map_cons] at nd
      exact (List.nodup_cons.mp nd).2
    have hne : d.task_id ≠ r.task_id := by
      unfold IdsNodup at nd
      rw [List.cons_append, List.map_cons] at nd
      have hd := (List.nodup_cons.mp nd).1
      intro he
      apply hd
      rw [he, List.map_append, List.map_cons]
      exact List.mem_append.mpr (Or.inr (List.mem_cons_self _ _))
    unfold dictGet
    rw [List.cons_append, List.find?_cons_of_neg]
    · exact ih ndt
    · simpa using hne

theorem dictSet_split {done rest : List Task} {r : Task} {f : Task → Task}
    (nd : IdsNodup (done ++ r :: rest)) :
    dictSet (done ++ r :: rest) r.task_id f = done ++ f r :: rest := by
  have hdone : ∀ d ∈ done, d.task_id ≠ r.task_id := by
    intro d hd he
    unfold IdsNodup at nd
    rw [List.map_append] at nd
    exact List.disjoint_of_nodup_append nd (List.mem_map_of_mem _ hd)
      (by rw [List.map_cons, he]; exact List.mem_cons_self _ _)
  have hrest : ∀ u ∈ rest, u.task_id ≠ r.task_id := by
    intro u hu he
    unfold IdsNodup at nd
    rw [List.map_append, List.map_cons] at nd
    have h2 := (List.nodup_cons.mp (List.Nodup.of_append_right nd)).1
    apply h2
    rw [← he]
    exact List.mem_map_of_mem _ hu
  unfold dictSet
  rw [List.map_append, List.map_cons]
  have e1 : done.map (fun t => if t.task_id == r.task_id then f t else t) = done := by
    calc done.map (fun t => if t.task_id == r.task_id then f t else t)
        = done.map id :=
          List.map_congr_left fun d hd => if_neg (by simpa using hdone d hd)
      _ = done := List.map_id done
  have e2 : rest.map (fun t => if t.task_id == r.task_id then f t else t) = rest := by
    calc rest.map (fun t => if t.task_id == r.task_id then f t else t)
        = rest.map id :=
          List.map_congr_left fun u hu => if_neg (by simpa using hrest u hu)
      _ = rest := List.map_id rest
  rw [e1, e2, if_pos (by simp)]

theorem calcFFStep_split {done rest' : List Task} {rA : Task} {cpA : List String}
    {st2 : List String × List Task}
    (ndA : IdsNodup (done ++ rA :: rest'))
    (hok : calcFFStep (cpA, done ++ rA :: rest') rA.task_id = Except.ok st2) :
    ∃ r2 : Task, st2.2 = done ++ r2 :: rest' ∧ r2.task_id = rA.task_id ∧
      r2.is_critical = rA.is_critical ∧ st2.1 = cpA := by
  have hgetA := dictGet_append_here ndA
  unfold calcFFStep at hok
  rw [show dictGet (cpA, done ++ rA :: rest').2 rA.task_id = some rA from hgetA] at hok
  simp only at hok
  by_cases hsink : rA.successors = []
  · rw [if_pos hsink] at hok
    have hpair := Except.ok.inj hok
    subst hpair
    exact ⟨_, dictSet_split ndA, rfl, rfl, rfl⟩
  · rw [if_neg hsink] at hok
    cases hfil : (rA.successors.filter fun s =>
        dictContains (done ++ rA :: rest') s) with
    | nil =>
      rw [show (rA.successors.filter fun s =>
        dictContains (cpA, done ++ rA :: rest').2 s) = [] from hfil] at hok
      exact Except.noConfusion hok
    | cons s0 srest =>
      rw [show (rA.successors.filter fun s =>
        dictContains (cpA, done ++ rA :: rest').2 s) = s0 :: srest from hfil] at hok
      simp only at hok
      split at hok
      · have hpair := Except.ok.inj hok
        subst hpair
        exact ⟨_, dictSet_split ndA, rfl, rfl, rfl⟩
      · exact Except.noConfusion hok

theorem calcStep_split {done rest' : List Task} {r : Task} {cp0 : List String}
    {st2 : List String × List Task}
    (nd : IdsNodup (done ++ r :: rest'))
    (hcrit0 : r.is_critical = false)
    (hok : calcStep (cp0, done ++ r :: rest') r.task_id = Except.ok st2) :
    ∃ r2 : Task, st2.2 = done ++ r2 :: rest' ∧ r2.task_id = r.task_id ∧
      st2.1 = cp0 ++ (if r2.is_critical then [r.task_id] else []) := by
  have hget : dictGet (done ++ r :: rest') r.task_id = some r := dictGet_append_here nd
  unfold calcStep at hok
  rw [show dictGet (cp0, done ++ r :: rest').2 r.task_id = some r from hget] at hok
  simp only at hok
  obtain ⟨rA, hts1, hidA⟩ :
      ∃ rA : Task, calcTFStep (cp0, done ++ r :: rest') r.task_id r
          = (cp0 ++ (if rA.is_critical then [r.task_id] else []), done ++ rA :: rest')
        ∧ rA.task_id = r.task_id := by
    unfold calcTFStep
    cases hes : r.early_start with
    | none =>
      refine ⟨r, ?_, rfl⟩
      rw [hcrit0]
      simp
    | some es =>
      cases hls : r.late_start with
      | none =>
        refine ⟨r, ?_, rfl⟩
        rw [hcrit0]
        simp
      | some ls =>
        simp only
        refine ⟨{ r with total_float := some (ls - es), is_critical := decide (ls - es = 0) }, ?_, rfl⟩
        have hsplit : dictSet (cp0, done ++ r :: rest').2 r.task_id
            (fun u => { u with total_float := some (ls - es), is_critical := decide (ls - es = 0) })
            = done ++ { r with total_float := some (ls - es), is_critical := decide (ls - es = 0) } :: rest' := dictSet_split nd
        rw [hsplit]
        by_cases hz : ls - es = 0
        · rw [if_pos hz]
          simp [hz]
        · rw [if_neg hz]
          simp [hz]
  rw [hts1] at hok
  have ndA : IdsNodup (done ++ rA :: rest') := by
    unfold IdsNodup at nd ⊢
    rw [List.map_append, List.map_cons] at nd ⊢
    rw [hidA]
    exact nd
  rw [← hidA] at hok
  obtain ⟨r2, h1, h2, h3, h4⟩ := calcFFStep_split ndA hok
  refine ⟨r2, h1, h2.trans hidA, ?_⟩
  rw [h4, h3, hidA]

theorem calc_fold_cp :
    ∀ (rest done : List Task) (cp0 : List String) {cp2 : List String} {out : List Task},
      GInv (done ++ rest) →
      (∀ u ∈ rest, u.is_critical = false) →
      List.foldlM calcStep (cp0, done ++ rest) (rest.map Task.task_id)
        = Except.ok (cp2, out) →
      ∃ rest2 : List Task, out = done ++ rest2 ∧
        cp2 = cp0 ++ (rest2.filter fun t => t.is_critical).map Task.task_id := by
  intro rest
  induction rest with
  | nil =>
    intro done cp0 cp2 out _ _ hok
    simp only [List.map_nil, List.foldlM_nil] at hok
    have hpair := Except.ok.inj hok
    refine ⟨[], ?_, ?_⟩
    · have := congrArg Prod.snd hpair
      simpa using this.symm
    · have := congrArg Prod.fst hpair
      simpa using this.symm
  | cons r rest' ih =>
    intro done cp0 cp2 out hG hcrit hok
    simp only [List.map_cons, List.foldlM_cons] at hok
    cases hstep : calcStep (cp0, done ++ r :: rest') r.task_id with
    | error e => rw [hstep] at hok; exact Except.noConfusion hok
    | ok st1 =>
      rw [hstep] at hok
      obtain ⟨r2, hst2, hid2, hcp1⟩ :=
        calcStep_split hG.1 (hcrit r (List.mem_cons_self _ _)) hstep
      have hG2 : GInv st1.2 := calcStep_GInv hG hstep
      have hassoc : done ++ r2 :: rest' = (done ++ [r2]) ++ rest' := by simp
      have hok2 : List.foldlM calcStep (st1.1, (done ++ [r2]) ++ rest')
          (rest'.map Task.task_id) = Except.ok (cp2, out) := by
        rw [← hassoc, ← hst2]
        exact hok
      have hG3 : GInv ((done ++ [r2]) ++ rest') := by
        rw [← hassoc, ← hst2]
        exact hG2
      obtain ⟨rest2, hout, hcp⟩ := ih (done ++ [r2]) st1.1 hG3
        (fun u hu => hcrit u (List.mem_cons_of_mem _ hu)) hok2
      refine ⟨r2 :: rest2, ?_, ?_⟩
      · rw [hout]
        simp
      · rw [hcp, hcp1]
        cases hc : r2.is_critical
        · simp [List.filter_cons, hc]
        · simp [List.filter_cons, hc, hid2]

/-- C10, amended: the returned critical path is the flat list of the ids
of exactly the tasks flagged critical, in task-table (insertion) order —
the code appends each critical id while iterating the dict; no ordering
along successor edges takes place and no chain structure or multiple
chains are ever produced (the counterexample shows the successor-edge
ordering fails). -/
theorem claim_c10_amended_flat_list (fuel : Nat) (rows : List TaskRec)
    (cp : List String) (ts : List Task)
    (hok : engineTasks fuel rows = Except.ok (cp, ts)) :
    cp = (ts.filter fun t => t.is_critical).map Task.task_id := by
  unfold engineTasks at hok
  cases hbw : backward_pass fuel (forward_pass fuel (create_task_objects rows)) with
  | error e => rw [hbw] at hok; exact Except.noConfusion hok
  | ok ts1 =>
    rw [hbw] at hok
    have hG1 : GInv ts1 :=
      backward_pass_GInv (forward_pass_GInv create_GInv)
        (forward_pass_forall (P := fun u => u.late_finish = none)
          (fun _ _ hp => hp) (fun _ _ hp => hp)
          (fun u hu => (create_fresh u hu).2.2.2.1))
        hbw
    have hcrit : ∀ u ∈ ts1, u.is_critical = false :=
      backward_pass_forall (P := fun u => u.is_critical = false)
        (fun _ hp => hp) (fun _ _ hp => hp) (fun _ _ hp => hp) hbw
        (forward_pass_forall (P := fun u => u.is_critical = false)
          (fun _ _ hp => hp) (fun _ _ hp => hp)
          (fun u hu => (create_fresh u hu).2.2.2.2.2.2))
    unfold calculate_floats_and_critical_path at hok
    obtain ⟨rest2, hout, hcp⟩ := calc_fold_cp ts1 [] [] hG1 hcrit hok
    rw [hout]
    simpa using hcp

/-- C10 witness: on rowsChainRev the returned path ["B", "A"] is exactly
the list of critical ids of the final table in its insertion order. -/
theorem claim_c10_witness :
    engineCP (engineTasks 10 rowsChainRev)
      = ((engineTaskList (engineTasks 10 rowsChainRev)).filter
          (fun t => t.is_critical)).map Task.task_id := by
  have h := claim_c10_amended_flat_list 10 rowsChainRev
    (engineCP (engineTasks 10 rowsChainRev))
    (engineTaskList (engineTasks 10 rowsChainRev)) (by rfl)
  exact h

end CPM
